import Mathlib

/-!
Verification of the ezdiff forward-mode automatic-differentiation engine
(src/lib.rs). The engine is a single generic type `Dual<F: Float, const N: usize>`
holding a value array `x: [F; N]` and a derivative array `dx: [F; N]`, with
arithmetic operators and elementary functions propagating derivatives by the
chain rule, applied independently per slot.

The embedding is parametric in the scalar float type: `FloatOps F` packages the
primitive scalar operations that the Rust `Float` trait (num_traits) provides
and that lib.rs uses. Every `Dual` operation below is translated directly from
the corresponding Rust item, per slot. The in-place loop of `Dual::exp` is
embedded as a fold over the slot indices that mutates one slot at a time,
preserving the source's update order (the source overwrites `x[i]` before
reading it to build `dx[i]`).

For claims about specific real-number behaviour, the float type is idealized as
the reals: `realOps : FloatOps ℝ` interprets `exp`, `ln`, `sin`, ... as the
corresponding real functions.
-/

namespace Ezdiff

/-- The primitive scalar operations of the float element type `F` used by
lib.rs: the arithmetic of the Rust `Float` trait plus the elementary
functions (`exp`, `ln`, `log`, `sin`, ..., `powf`, `powi`, `sqrt`) that the
source calls on scalars. `half` is the constant obtained in the source by
`F::from(0.5).unwrap()`. -/
structure FloatOps (F : Type) where
  one : F
  half : F
  neg : F → F
  add : F → F → F
  sub : F → F → F
  mul : F → F → F
  div : F → F → F
  exp : F → F
  ln : F → F
  logb : F → F → F
  sin : F → F
  cos : F → F
  tan : F → F
  asin : F → F
  acos : F → F
  atan : F → F
  powf : F → F → F
  powi : F → ℤ → F
  sqrtf : F → F

/-- `Dual<F: Float, const N: usize> { x: [F; N], dx: [F; N] }` (lib.rs line 8):
the value slots `x` and the derivative slots `dx`. -/
structure Dual (F : Type) (N : ℕ) where
  x : Fin N → F
  dx : Fin N → F

variable {F : Type} {N : ℕ}

/-- `Dual::new(val)`: `x = [val; N]`, `dx = [F::one(); N]` (lib.rs line 16). -/
def Dual.new (ops : FloatOps F) (val : F) : Dual F N :=
  { x := fun _ => val, dx := fun _ => ops.one }

/-- The `dual!` macro: `dual!(a)` expands to `Dual::new(a)` (lib.rs line 302). -/
def dualLit (ops : FloatOps F) (a : F) : Dual F N :=
  Dual.new ops a

/-- `impl Neg for Dual` (lib.rs line 110): negate value and derivative. -/
def Dual.neg (ops : FloatOps F) (d : Dual F N) : Dual F N :=
  { x := fun i => ops.neg (d.x i), dx := fun i => ops.neg (d.dx i) }

/-- Sum rule, `impl Add for Dual` (lib.rs line 122). -/
def Dual.add (ops : FloatOps F) (a b : Dual F N) : Dual F N :=
  { x := fun i => ops.add (a.x i) (b.x i), dx := fun i => ops.add (a.dx i) (b.dx i) }

/-- Sum constant, `impl Add<F> for Dual` (lib.rs line 134): `x: self.x + rhs`,
`dx: self.dx`. -/
def Dual.addConst (ops : FloatOps F) (d : Dual F N) (rhs : F) : Dual F N :=
  { x := fun i => ops.add (d.x i) rhs, dx := fun i => d.dx i }

/-- Sum constant, `impl Add<Dual<f32, N>> for f32` and the `f64` twin
(lib.rs lines 146, 158): `x: rhs.x + self`, `dx: rhs.dx`. -/
def constAdd (ops : FloatOps F) (c : F) (rhs : Dual F N) : Dual F N :=
  { x := fun i => ops.add (rhs.x i) c, dx := fun i => rhs.dx i }

/-- Sum constant, `impl Add<Dual<F, N>> for (F,)` (lib.rs line 170):
`x: rhs.x + self.0`, `dx: rhs.dx`. -/
def tupleAdd (ops : FloatOps F) (c : F) (rhs : Dual F N) : Dual F N :=
  { x := fun i => ops.add (rhs.x i) c, dx := fun i => rhs.dx i }

/-- Difference rule, `impl Sub for Dual` (lib.rs line 182). -/
def Dual.sub (ops : FloatOps F) (a b : Dual F N) : Dual F N :=
  { x := fun i => ops.sub (a.x i) (b.x i), dx := fun i => ops.sub (a.dx i) (b.dx i) }

/-- Product rule, `impl Mul for Dual` (lib.rs line 194):
`dx: self.x * rhs.dx + rhs.x * self.dx`. -/
def Dual.mul (ops : FloatOps F) (a b : Dual F N) : Dual F N :=
  { x := fun i => ops.mul (a.x i) (b.x i)
    dx := fun i => ops.add (ops.mul (a.x i) (b.dx i)) (ops.mul (b.x i) (a.dx i)) }

/-- Constant multiple rule, `impl Mul<F> for Dual` (lib.rs line 206):
`x: self.x * rhs`, `dx: self.dx * rhs`. -/
def Dual.mulConst (ops : FloatOps F) (d : Dual F N) (rhs : F) : Dual F N :=
  { x := fun i => ops.mul (d.x i) rhs, dx := fun i => ops.mul (d.dx i) rhs }

/-- Constant multiple rule, `impl Mul<Dual<f32, N>> for f32` and the `f64` twin
(lib.rs lines 218, 230): `x: self * rhs.x`, `dx: self * rhs.dx`. -/
def constMul (ops : FloatOps F) (c : F) (rhs : Dual F N) : Dual F N :=
  { x := fun i => ops.mul c (rhs.x i), dx := fun i => ops.mul c (rhs.dx i) }

/-- Quotient rule as implemented, `impl Div for Dual` (lib.rs line 242):
`x: self.x / rhs.x`,
`dx: (self.x * rhs.dx + rhs.x * self.dx) / (rhs.x * rhs.x)`. -/
def Dual.div (ops : FloatOps F) (a b : Dual F N) : Dual F N :=
  { x := fun i => ops.div (a.x i) (b.x i)
    dx := fun i =>
      ops.div (ops.add (ops.mul (a.x i) (b.dx i)) (ops.mul (b.x i) (a.dx i)))
        (ops.mul (b.x i) (b.x i)) }

/-- Power rule, `impl Pow<F> for Dual` (lib.rs line 254):
`x: self.x.powf(rhs)`, `dx: rhs * self.x.powf(rhs - F::one()) * self.dx`. -/
def Dual.pow (ops : FloatOps F) (d : Dual F N) (rhs : F) : Dual F N :=
  { x := fun i => ops.powf (d.x i) rhs
    dx := fun i =>
      ops.mul (ops.mul rhs (ops.powf (d.x i) (ops.sub rhs ops.one))) (d.dx i) }

/-- `Dual::sqrt`: `self.pow(F::from(0.5).unwrap())` (lib.rs line 24). -/
def Dual.sqrt (ops : FloatOps F) (d : Dual F N) : Dual F N :=
  d.pow ops ops.half

/-- `impl Pow<Dual<f32, N>> for f32` and the `f64` twin (lib.rs lines 278, 290):
`x: self.powf(rhs.x)`, `dx: self.ln() * self.powf(rhs.x) * rhs.dx`. -/
def constPow (ops : FloatOps F) (base : F) (rhs : Dual F N) : Dual F N :=
  { x := fun i => ops.powf base (rhs.x i)
    dx := fun i => ops.mul (ops.mul (ops.ln base) (ops.powf base (rhs.x i))) (rhs.dx i) }

/-- `impl Pow<Dual<F, N>> for (F,)` (lib.rs line 266): `x: self.0.powf(rhs.x)`,
`dx: self.0.ln() * self.0.powf(rhs.x) * rhs.dx`. -/
def tuplePow (ops : FloatOps F) (base : F) (rhs : Dual F N) : Dual F N :=
  { x := fun i => ops.powf base (rhs.x i)
    dx := fun i => ops.mul (ops.mul (ops.ln base) (ops.powf base (rhs.x i))) (rhs.dx i) }

/-- One iteration of the loop body of `Dual::exp` (lib.rs lines 30-33) at slot
`i`: first `self.x[i] = self.x[i].exp()` overwrites the value slot, then
`self.dx[i] = self.x[i].exp() * self.dx[i]` reads the overwritten slot. -/
def expStep (ops : FloatOps F) (d : Dual F N) (i : Fin N) : Dual F N :=
  let x1 := Function.update d.x i (ops.exp (d.x i))
  { x := x1, dx := Function.update d.dx i (ops.mul (ops.exp (x1 i)) (d.dx i)) }

/-- `Dual::exp` (lib.rs line 29): `for i in 0..N { x[i] = x[i].exp();
dx[i] = x[i].exp() * dx[i]; }`. -/
def Dual.exp (ops : FloatOps F) (d : Dual F N) : Dual F N :=
  (List.finRange N).foldl (expStep ops) d

/-- `Dual::ln` (lib.rs line 38): `x: self.x.ln()`,
`dx: self.x.powi(-1) * self.dx`. -/
def Dual.ln (ops : FloatOps F) (d : Dual F N) : Dual F N :=
  { x := fun i => ops.ln (d.x i)
    dx := fun i => ops.mul (ops.powi (d.x i) (-1)) (d.dx i) }

/-- `Dual::log(base)` (lib.rs line 46): `x: self.x.log(base)`,
`dx: (base.ln() * self.x).powi(-1) * self.dx`. -/
def Dual.log (ops : FloatOps F) (d : Dual F N) (base : F) : Dual F N :=
  { x := fun i => ops.logb (d.x i) base
    dx := fun i => ops.mul (ops.powi (ops.mul (ops.ln base) (d.x i)) (-1)) (d.dx i) }

/-- `Dual::sin` (lib.rs line 54): `x: self.x.sin()`,
`dx: self.x.cos() * self.dx`. -/
def Dual.sin (ops : FloatOps F) (d : Dual F N) : Dual F N :=
  { x := fun i => ops.sin (d.x i)
    dx := fun i => ops.mul (ops.cos (d.x i)) (d.dx i) }

/-- `Dual::cos` (lib.rs line 62): `x: self.x.cos()`,
`dx: -self.x.sin() * self.dx`. -/
def Dual.cos (ops : FloatOps F) (d : Dual F N) : Dual F N :=
  { x := fun i => ops.cos (d.x i)
    dx := fun i => ops.mul (ops.neg (ops.sin (d.x i))) (d.dx i) }

/-- `Dual::tan` (lib.rs line 70): `x: self.x.tan()`,
`dx: self.x.cos().powi(-2) * self.dx`. -/
def Dual.tan (ops : FloatOps F) (d : Dual F N) : Dual F N :=
  { x := fun i => ops.tan (d.x i)
    dx := fun i => ops.mul (ops.powi (ops.cos (d.x i)) (-2)) (d.dx i) }

/-- `Dual::asin` (lib.rs line 78): `x: self.x.asin()`,
`dx: (F::one() - self.x.powi(2)).sqrt().powi(-1) * self.dx`. -/
def Dual.asin (ops : FloatOps F) (d : Dual F N) : Dual F N :=
  { x := fun i => ops.asin (d.x i)
    dx := fun i =>
      ops.mul (ops.powi (ops.sqrtf (ops.sub ops.one (ops.powi (d.x i) 2))) (-1)) (d.dx i) }

/-- `Dual::acos` (lib.rs line 86): `x: self.x.acos()`,
`dx: -(F::one() - self.x.powi(2)).sqrt().powi(-1) * self.dx`. -/
def Dual.acos (ops : FloatOps F) (d : Dual F N) : Dual F N :=
  { x := fun i => ops.acos (d.x i)
    dx := fun i =>
      ops.mul (ops.neg (ops.powi (ops.sqrtf (ops.sub ops.one (ops.powi (d.x i) 2))) (-1)))
        (d.dx i) }

/-- `Dual::atan` (lib.rs line 94): `x: self.x.atan()`,
`dx: (F::one() + self.x.powi(2)).powi(-1) * self.dx`. -/
def Dual.atan (ops : FloatOps F) (d : Dual F N) : Dual F N :=
  { x := fun i => ops.atan (d.x i)
    dx := fun i => ops.mul (ops.powi (ops.add ops.one (ops.powi (d.x i) 2)) (-1)) (d.dx i) }

/-- `Dual::value` (lib.rs line 101): read-only view of the value slots. -/
def Dual.value (d : Dual F N) : Fin N → F := d.x

/-- `Dual::derivative` (lib.rs line 105): read-only view of the derivative
slots. -/
def Dual.derivative (d : Dual F N) : Fin N → F := d.dx

/-- The float element type idealized as the real numbers: each primitive of the
Rust `Float` trait is interpreted by the corresponding real function. -/
noncomputable def realOps : FloatOps ℝ where
  one := 1
  half := 1 / 2
  neg := fun a => -a
  add := fun a b => a + b
  sub := fun a b => a - b
  mul := fun a b => a * b
  div := fun a b => a / b
  exp := Real.exp
  ln := Real.log
  logb := fun a base => Real.logb base a
  sin := Real.sin
  cos := Real.cos
  tan := Real.tan
  asin := Real.arcsin
  acos := Real.arccos
  atan := Real.arctan
  powf := fun a b => a ^ b
  powi := fun a n => a ^ n
  sqrtf := Real.sqrt

/-! ### Characterization of the `Dual::exp` loop

The loop touches each slot exactly once, so the final value slot holds
`exp (x i)` and the final derivative slot holds `exp (exp (x i)) * dx i`:
the derivative factor is the exponential of the already-overwritten value. -/

lemma expStep_x (ops : FloatOps F) (d : Dual F N) (j i : Fin N) :
    (expStep ops d j).x i = if i = j then ops.exp (d.x j) else d.x i := by
  by_cases h : i = j
  · subst h; simp [expStep, Function.update_same]
  · simp [expStep, Function.update_noteq h, h]

lemma expStep_dx (ops : FloatOps F) (d : Dual F N) (j i : Fin N) :
    (expStep ops d j).dx i =
      if i = j then ops.mul (ops.exp (ops.exp (d.x j))) (d.dx j) else d.dx i := by
  by_cases h : i = j
  · subst h; simp [expStep, Function.update_same]
  · simp [expStep, Function.update_noteq h, h]

lemma foldl_expStep_spec (ops : FloatOps F) (l : List (Fin N)) (hl : l.Nodup)
    (d : Dual F N) (i : Fin N) :
    ((l.foldl (expStep ops) d).x i = if i ∈ l then ops.exp (d.x i) else d.x i) ∧
    ((l.foldl (expStep ops) d).dx i =
      if i ∈ l then ops.mul (ops.exp (ops.exp (d.x i))) (d.dx i) else d.dx i) := by
  induction l generalizing d with
  | nil => simp
  | cons j l ih =>
    obtain ⟨hj, hl'⟩ := List.nodup_cons.mp hl
    have H := ih hl' (expStep ops d j)
    by_cases hij : i = j
    · subst hij
      have hnotmem : i ∉ l := hj
      simp only [List.foldl_cons, List.mem_cons, true_or, if_true]
      constructor
      · rw [H.1, if_neg hnotmem, expStep_x, if_pos rfl]
      · rw [H.2, if_neg hnotmem, expStep_dx, if_pos rfl]
    · have hx : (expStep ops d j).x i = d.x i := by rw [expStep_x, if_neg hij]
      have hdx : (expStep ops d j).dx i = d.dx i := by rw [expStep_dx, if_neg hij]
      simp only [List.foldl_cons, List.mem_cons, hij, false_or]
      rw [H.1, H.2, hx, hdx]
      exact ⟨rfl, rfl⟩

lemma exp_x (ops : FloatOps F) (d : Dual F N) (i : Fin N) :
    (Dual.exp ops d).x i = ops.exp (d.x i) := by
  have h := (foldl_expStep_spec ops (List.finRange N) (List.nodup_finRange N) d i).1
  rwa [if_pos (List.mem_finRange i)] at h

lemma exp_dx (ops : FloatOps F) (d : Dual F N) (i : Fin N) :
    (Dual.exp ops d).dx i = ops.mul (ops.exp (ops.exp (d.x i))) (d.dx i) := by
  have h := (foldl_expStep_spec ops (List.finRange N) (List.nodup_finRange N) d i).2
  rwa [if_pos (List.mem_finRange i)] at h

/-! ### Single-variable expressions over the engine's operation set

An expression built by chaining the engine's operations on one dual value
seeded from a literal, used to compare the width-N evaluation against the
width-1 (scalar) evaluation slot by slot. -/

inductive Expr (F : Type) where
  | var : Expr F
  | neg : Expr F → Expr F
  | add : Expr F → Expr F → Expr F
  | sub : Expr F → Expr F → Expr F
  | mul : Expr F → Expr F → Expr F
  | div : Expr F → Expr F → Expr F
  | addConst : Expr F → F → Expr F
  | constAdd : F → Expr F → Expr F
  | mulConst : Expr F → F → Expr F
  | constMul : F → Expr F → Expr F
  | powConst : Expr F → F → Expr F
  | constPow : F → Expr F → Expr F
  | sqrt : Expr F → Expr F
  | exp : Expr F → Expr F
  | ln : Expr F → Expr F
  | log : Expr F → F → Expr F
  | sin : Expr F → Expr F
  | cos : Expr F → Expr F
  | tan : Expr F → Expr F
  | asin : Expr F → Expr F
  | acos : Expr F → Expr F
  | atan : Expr F → Expr F

/-- Evaluate an expression at width `N`, with the variable seeded from the
literal `c` by `Dual::new` (equivalently the `dual!` macro). Each operation is
the width-N engine operation defined above. -/
def evalD (ops : FloatOps F) (N : ℕ) (c : F) : Expr F → Dual F N
  | .var => Dual.new ops c
  | .neg e => Dual.neg ops (evalD ops N c e)
  | .add a b => Dual.add ops (evalD ops N c a) (evalD ops N c b)
  | .sub a b => Dual.sub ops (evalD ops N c a) (evalD ops N c b)
  | .mul a b => Dual.mul ops (evalD ops N c a) (evalD ops N c b)
  | .div a b => Dual.div ops (evalD ops N c a) (evalD ops N c b)
  | .addConst e k => Dual.addConst ops (evalD ops N c e) k
  | .constAdd k e => constAdd ops k (evalD ops N c e)
  | .mulConst e k => Dual.mulConst ops (evalD ops N c e) k
  | .constMul k e => constMul ops k (evalD ops N c e)
  | .powConst e k => Dual.pow ops (evalD ops N c e) k
  | .constPow k e => constPow ops k (evalD ops N c e)
  | .sqrt e => Dual.sqrt ops (evalD ops N c e)
  | .exp e => Dual.exp ops (evalD ops N c e)
  | .ln e => Dual.ln ops (evalD ops N c e)
  | .log e base => Dual.log ops (evalD ops N c e) base
  | .sin e => Dual.sin ops (evalD ops N c e)
  | .cos e => Dual.cos ops (evalD ops N c e)
  | .tan e => Dual.tan ops (evalD ops N c e)
  | .asin e => Dual.asin ops (evalD ops N c e)
  | .acos e => Dual.acos ops (evalD ops N c e)
  | .atan e => Dual.atan ops (evalD ops N c e)

/-! ### Claim theorems -/

/-- C1: the claim states that `x.exp()` returns a dual value whose derivative
component is `e^(x.value) * x.derivative` in every slot. The code contradicts
this (and its own test `tests::exp`, which expects value and derivative both
equal to `e` at input `1.0`): the loop overwrites `x[i]` with `exp(x[i])`
before reading `x[i]` to build the derivative factor, so the derivative slot
becomes `exp(exp(x)) * dx`. At the seed `1.0` the computed derivative is
`exp(exp 1) ≈ 15.15`, not `e ≈ 2.718` as the claim and the test require. -/
theorem exp_derivative_diverges_from_spec :
    (Dual.exp realOps (Dual.new realOps 1 : Dual ℝ 1)).derivative 0 =
        Real.exp (Real.exp 1) * 1 ∧
      Real.exp (Real.exp 1) * 1 ≠
        Real.exp ((Dual.new realOps 1 : Dual ℝ 1).value 0) *
          ((Dual.new realOps 1 : Dual ℝ 1).derivative 0) := by
  constructor
  · show (Dual.exp realOps (Dual.new realOps 1 : Dual ℝ 1)).dx 0 = _
    rw [exp_dx]
    simp [Dual.new, realOps]
  · have h1 : (1 : ℝ) < Real.exp 1 := Real.one_lt_exp_iff.mpr zero_lt_one
    have h2 : Real.exp 1 < Real.exp (Real.exp 1) := Real.exp_lt_exp.mpr h1
    simp only [Dual.new, Dual.value, Dual.derivative, realOps, mul_one]
    exact ne_of_gt h2

/-- C2: `a / b` has value `a.value / b.value` and derivative
`(a.value*b.derivative + b.value*a.derivative) / (b.value*b.value)`, the
literal rule of `impl Div for Dual`, in every slot. -/
theorem div_literal_rule {N : ℕ} (a b : Dual ℝ N) (i : Fin N) :
    (Dual.div realOps a b).value i = a.value i / b.value i ∧
    (Dual.div realOps a b).derivative i =
      (a.value i * b.derivative i + b.value i * a.derivative i) /
        (b.value i * b.value i) := by
  constructor <;> simp [Dual.div, Dual.value, Dual.derivative, realOps]

/-- C3: a dual value constructed from a literal `c` by `Dual::new` (or the
`dual!` macro, which expands to `Dual::new`) has `value() == c` and
`derivative() == 1` in every slot of every width. -/
theorem new_seeds_value_and_unit_derivative {N : ℕ} (c : ℝ) (i : Fin N) :
    (Dual.new realOps c : Dual ℝ N).value i = c ∧
    (Dual.new realOps c : Dual ℝ N).derivative i = 1 ∧
    (dualLit realOps c : Dual ℝ N) = Dual.new realOps c :=
  ⟨rfl, rfl, rfl⟩

/-- C4: for a constant `c` and a dual value `x`, `c + x` and `x + c` produce
identical (value, derivative) pairs, and so do `c * x` and `x * c`, in every
slot. -/
theorem const_add_mul_commute {N : ℕ} (c : ℝ) (x : Dual ℝ N) (i : Fin N) :
    (constAdd realOps c x).value i = (Dual.addConst realOps x c).value i ∧
    (constAdd realOps c x).derivative i = (Dual.addConst realOps x c).derivative i ∧
    (constMul realOps c x).value i = (Dual.mulConst realOps x c).value i ∧
    (constMul realOps c x).derivative i = (Dual.mulConst realOps x c).derivative i := by
  refine ⟨rfl, rfl, ?_, ?_⟩ <;>
    simp [constMul, Dual.mulConst, Dual.value, Dual.derivative, realOps, mul_comm]

/-- C5: for every width `N`, every expression built from the engine's
operations and every seed literal `c`, each slot `i` of the width-N result
carries exactly the (value, derivative) pair of the width-1 (scalar)
evaluation of the same expression seeded from `c`; in particular slot `i`
depends only on slot `i` of the operands. Holds for any float interpretation
`ops`. -/
theorem width_refines_scalar {F : Type} (ops : FloatOps F) (c : F) (e : Expr F)
    {N : ℕ} (i : Fin N) :
    (evalD ops N c e).x i = (evalD ops 1 c e).x 0 ∧
    (evalD ops N c e).dx i = (evalD ops 1 c e).dx 0 := by
  induction e with
  | var => exact ⟨rfl, rfl⟩
  | neg e ih => simp [evalD, Dual.neg, ih.1, ih.2]
  | add a b iha ihb => simp [evalD, Dual.add, iha.1, iha.2, ihb.1, ihb.2]
  | sub a b iha ihb => simp [evalD, Dual.sub, iha.1, iha.2, ihb.1, ihb.2]
  | mul a b iha ihb => simp [evalD, Dual.mul, iha.1, iha.2, ihb.1, ihb.2]
  | div a b iha ihb => simp [evalD, Dual.div, iha.1, iha.2, ihb.1, ihb.2]
  | addConst e k ih => simp [evalD, Dual.addConst, ih.1, ih.2]
  | constAdd k e ih => simp [evalD, Ezdiff.constAdd, ih.1, ih.2]
  | mulConst e k ih => simp [evalD, Dual.mulConst, ih.1, ih.2]
  | constMul k e ih => simp [evalD, Ezdiff.constMul, ih.1, ih.2]
  | powConst e k ih => simp [evalD, Dual.pow, ih.1, ih.2]
  | constPow k e ih => simp [evalD, Ezdiff.constPow, ih.1, ih.2]
  | sqrt e ih => simp [evalD, Dual.sqrt, Dual.pow, ih.1, ih.2]
  | exp e ih => exact ⟨by rw [evalD, evalD, exp_x, exp_x, ih.1],
      by rw [evalD, evalD, exp_dx, exp_dx, ih.1, ih.2]⟩
  | ln e ih => simp [evalD, Dual.ln, ih.1, ih.2]
  | log e base ih => simp [evalD, Dual.log, ih.1, ih.2]
  | sin e ih => simp [evalD, Dual.sin, ih.1, ih.2]
  | cos e ih => simp [evalD, Dual.cos, ih.1, ih.2]
  | tan e ih => simp [evalD, Dual.tan, ih.1, ih.2]
  | asin e ih => simp [evalD, Dual.asin, ih.1, ih.2]
  | acos e ih => simp [evalD, Dual.acos, ih.1, ih.2]
  | atan e ih => simp [evalD, Dual.atan, ih.1, ih.2]

/-- C6: `b.pow(x)` with a plain constant base `b` and dual exponent `x` has
value `b^(x.value)` and derivative `ln(b) * b^(x.value) * x.derivative` in
every slot; the `(F,)` tuple impl computes the same dual value. -/
theorem const_pow_dual_rule {N : ℕ} (b : ℝ) (x : Dual ℝ N) (i : Fin N) :
    (constPow realOps b x).value i = b ^ (x.value i) ∧
    (constPow realOps b x).derivative i =
      Real.log b * b ^ (x.value i) * x.derivative i ∧
    tuplePow realOps b x = constPow realOps b x := by
  refine ⟨rfl, ?_, rfl⟩
  simp [constPow, Dual.value, Dual.derivative, realOps]

/-- C8: adding a plain constant `c` to a dual value `x` (in either operand
order) leaves every derivative slot exactly equal to the corresponding slot of
`x.derivative`, and changes the value slots only by adding `c`. -/
theorem add_const_frame {N : ℕ} (x : Dual ℝ N) (c : ℝ) (i : Fin N) :
    (Dual.addConst realOps x c).derivative i = x.derivative i ∧
    (Dual.addConst realOps x c).value i = x.value i + c ∧
    (constAdd realOps c x).derivative i = x.derivative i ∧
    (constAdd realOps c x).value i = x.value i + c :=
  ⟨rfl, rfl, rfl, rfl⟩

/-- C9: `x.sin()` has value `sin(x.value)` and derivative
`cos(x.value) * x.derivative` in every slot. -/
theorem sin_rule {N : ℕ} (x : Dual ℝ N) (i : Fin N) :
    (Dual.sin realOps x).value i = Real.sin (x.value i) ∧
    (Dual.sin realOps x).derivative i = Real.cos (x.value i) * x.derivative i := by
  constructor <;> simp [Dual.sin, Dual.value, Dual.derivative, realOps]

/-- C10: the value projection is a homomorphism to the plain float algebra:
for every operation of the engine, the value component of the result is the
corresponding plain real operation applied to the value components of the
inputs, independent of the inputs' derivative components. -/
theorem value_projection_hom {N : ℕ} (a b : Dual ℝ N) (c : ℝ) (i : Fin N) :
    (Dual.neg realOps a).value i = -(a.value i) ∧
    (Dual.add realOps a b).value i = a.value i + b.value i ∧
    (Dual.sub realOps a b).value i = a.value i - b.value i ∧
    (Dual.mul realOps a b).value i = a.value i * b.value i ∧
    (Dual.div realOps a b).value i = a.value i / b.value i ∧
    (Dual.addConst realOps a c).value i = a.value i + c ∧
    (constAdd realOps c a).value i = c + a.value i ∧
    (Dual.mulConst realOps a c).value i = a.value i * c ∧
    (constMul realOps c a).value i = c * a.value i ∧
    (Dual.pow realOps a c).value i = a.value i ^ c ∧
    (constPow realOps c a).value i = c ^ a.value i ∧
    (Dual.exp realOps a).value i = Real.exp (a.value i) ∧
    (Dual.ln realOps a).value i = Real.log (a.value i) ∧
    (Dual.log realOps a c).value i = Real.logb c (a.value i) ∧
    (Dual.sin realOps a).value i = Real.sin (a.value i) ∧
    (Dual.cos realOps a).value i = Real.cos (a.value i) ∧
    (Dual.tan realOps a).value i = Real.tan (a.value i) ∧
    (Dual.asin realOps a).value i = Real.arcsin (a.value i) ∧
    (Dual.acos realOps a).value i = Real.arccos (a.value i) ∧
    (Dual.atan realOps a).value i = Real.arctan (a.value i) := by
  refine ⟨rfl, rfl, rfl, rfl, rfl, rfl, ?_, rfl, rfl, rfl, rfl, ?_,
    rfl, rfl, rfl, rfl, rfl, rfl, rfl, rfl⟩
  · simp [constAdd, Dual.value, realOps, add_comm]
  · exact exp_x realOps a i

end Ezdiff
